import Mathlib

/-!
Verification of the change-and-event analysis engine of
`projects/unit3/build-mcp-server/starter/server.py`.

The Python tools are embedded shallowly:
* child-process git invocations are modelled by a `GitEnv` record holding the
  text each git query would produce (the `--name-status` query, run with
  `check = True`, may fail and is therefore an `Except`);
* file reads are modelled by a `read : String → Except String String`
  parameter (`.error` models a raised `OSError`);
* the on-disk event store is modelled by
  `Option (Except String (List Event))`: `none` is an absent file,
  `some (.error m)` a present file whose JSON parse raises, and
  `some (.ok events)` a parsed event list;
* a Python exception that escapes a tool is modelled by `Except.error`,
  while a JSON payload that the tool *returns* (including `{"error": ...}`
  payloads) is modelled by `Except.ok` of a structured value.
-/

namespace PRAgent

instance {ε α : Type} [DecidableEq ε] [DecidableEq α] : DecidableEq (Except ε α) :=
  fun a b =>
    match a, b with
    | .error e, .error f =>
      if h : e = f then isTrue (by rw [h]) else isFalse (fun hh => h (Except.error.inj hh))
    | .ok x, .ok y =>
      if h : x = y then isTrue (by rw [h]) else isFalse (fun hh => h (Except.ok.inj hh))
    | .error _, .ok _ => isFalse (fun hh => Except.noConfusion hh)
    | .ok _, .error _ => isFalse (fun hh => Except.noConfusion hh)

/-- The relevant shape of a `workflow_run` object inside a stored webhook
event: the aggregator reads `name`, `status`, `updated_at`, `html_url` as
required keys and `conclusion` via `.get` (optional). -/
structure WorkflowRun where
  name : String
  status : String
  conclusion : Option String
  updated_at : String
  html_url : String
deriving Repr, DecidableEq

/-- A stored webhook event: `workflow_run` may be absent (or JSON null),
`repository.full_name` is read via `.get` chains (optional). -/
structure Event where
  workflow_run : Option WorkflowRun
  repository_full_name : Option String
deriving Repr, DecidableEq

/-- One entry of the aggregated per-workflow status output. -/
structure WorkflowSummary where
  name : String
  status : String
  conclusion : Option String
  updated_at : String
  url : String
  repository : Option String
deriving Repr, DecidableEq

/-- The JSON payload `get_workflow_status` returns: either the informational
`{"message": ...}` object or the list of summaries.  The source never builds
an `{"error": ...}` payload in this tool. -/
inductive StatusResult where
  | message (msg : String)
  | summaries (l : List WorkflowSummary)
deriving Repr, DecidableEq

/-- `DEFAULT_TEMPLATES` from the source, in dict insertion order. -/
def DEFAULT_TEMPLATES : List (String × String) :=
  [("bug.md", "Bug Fix"), ("feature.md", "Feature"), ("docs.md", "Documentation"),
   ("refactor.md", "Refactor"), ("test.md", "Test"), ("performance.md", "Performance"),
   ("security.md", "Security")]

/-- `TYPE_MAPPING` from the source. -/
def TYPE_MAPPING : List (String × String) :=
  [("bug", "bug.md"), ("fix", "bug.md"), ("feature", "feature.md"),
   ("enhancement", "feature.md"), ("docs", "docs.md"), ("documentation", "docs.md"),
   ("refactor", "refactor.md"), ("cleanup", "refactor.md"), ("test", "test.md"),
   ("testing", "test.md"), ("performance", "performance.md"),
   ("optimization", "performance.md"), ("security", "security.md")]

/-! ## Python string primitives

Structural models of the Python string operations the source uses, defined
by recursion on the character list so that concrete instances evaluate
inside the kernel. -/

/-- Python's `s.split('\n')` on the character list: `n` separators yield
`n + 1` parts, so the empty string yields one empty part. -/
def splitNl : List Char → List (List Char)
  | [] => [[]]
  | c :: cs =>
    match splitNl cs with
    | [] => [[]]
    | p :: ps => if c = '\n' then [] :: p :: ps else (c :: p) :: ps

/-- Python's `s.split('\n')` as a `String` operation. -/
def pySplitLines (s : String) : List String :=
  (splitNl s.data).map (fun l => String.mk l)

/-- Python's `sep.join(xs)`. -/
def pyJoin (sep : String) : List String → String
  | [] => ""
  | [x] => x
  | x :: xs => x ++ sep ++ pyJoin sep xs

/-- Python's `s.lower()` (ASCII case mapping — every label the source's
tables hold is ASCII). -/
def pyToLower (s : String) : String := String.mk (s.data.map Char.toLower)

/-- Python's `a < b` on strings: lexicographic comparison of the code-point
sequences (equal heads recurse, the shorter strict prefix is smaller). -/
def charListLt : List Char → List Char → Bool
  | [], [] => false
  | [], _ :: _ => true
  | _ :: _, [] => false
  | a :: as, b :: bs => if a < b then true else if b < a then false else charListLt as bs

/-- Python's `a < b` as a `String` operation. -/
def pyLt (a b : String) : Bool := charListLt a.data b.data

/-- Python's `d.get(key)` on a string-keyed dict, modelled on the
insertion-ordered pair list. -/
def dictGet {β : Type} : List (String × β) → String → Option β
  | [], _ => none
  | (k, v) :: rest, n => if n = k then some v else dictGet rest n

/-! ## analyze_file_changes -/

/-- Outputs of the four git queries run by `analyze_file_changes`.
The `--name-status` query runs with `check = True`, so a non-zero exit raises
`CalledProcessError` carrying `stderr`; the other three queries are used
unchecked, their stdout consumed as-is. -/
structure GitEnv where
  name_status : Except String String
  stat : String
  diff : String
  log : String

/-- The analysis payload built on the success path. -/
structure Analysis where
  base_branch : String
  files_changed : String
  statistics : String
  commits : String
  diff : String
  truncated : Bool
  total_diff_lines : Nat
deriving Repr, DecidableEq

/-- What a tool call hands back to the MCP layer: either a JSON payload of
`α` or a JSON `{"error": ...}` payload.  Both are *returned* values; neither
is a propagated exception. -/
inductive ToolResult (α : Type) where
  | payload (a : α)
  | errorPayload (msg : String)
deriving Repr, DecidableEq

/-- Python's `len(s.split('\n'))`: the line count the source computes. -/
def lineCount (s : String) : Nat := (pySplitLines s).length

/-- The text appended after the kept lines when the diff is truncated
(two `...` lines: how many of the total lines were shown, and how to see
more). -/
def truncationNotice (maxLines total : Nat) : String :=
  "\n\n... Output truncated. Showing " ++ toString maxLines ++ " of " ++
    toString total ++ " lines..." ++ "\n... Use max_diff_lines parameter to see more..."

/-- Placeholder diff text when `include_diff` is false. -/
def diffPlaceholder : String :=
  "Diff not included (set include_diff = True to see full diff)"

/-- `analyze_file_changes(base_branch, include_diff, max_diff_lines)` over a
`GitEnv`.  `max_diff_lines` is kept as `Nat` (the contract requires a
positive integer; for every non-negative value Python slicing and
`List.take` agree).  The outer `try/except` of the source makes every
failure a returned `{"error": ...}` payload, so the result type is
`ToolResult Analysis` with no propagated exception.  The MCP-roots working
directory resolution and the `_debug` payload field are omitted: both are
interactions with the out-of-scope transport layer and affect no other
field. -/
def analyze_file_changes (env : GitEnv) (base_branch : String)
    (include_diff : Bool) (max_diff_lines : Nat) : ToolResult Analysis :=
  match env.name_status with
  | .error stderr => .errorPayload ("Git error: " ++ stderr)
  | .ok files_out =>
    let diff_lines := pySplitLines env.diff
    let diff_content :=
      if include_diff then
        if diff_lines.length > max_diff_lines then
          pyJoin "\n" (diff_lines.take max_diff_lines) ++
            truncationNotice max_diff_lines diff_lines.length
        else env.diff
      else ""
    let truncated := include_diff && decide (diff_lines.length > max_diff_lines)
    .payload
      { base_branch := base_branch
        files_changed := files_out
        statistics := env.stat
        commits := env.log
        diff := if include_diff then diff_content else diffPlaceholder
        truncated := truncated
        total_diff_lines := if include_diff then diff_lines.length else 0 }

/-! ## get_pr_templates / suggest_template -/

/-- One entry of the `get_pr_templates` listing. -/
structure Template where
  filename : String
  type : String
  content : String
deriving Repr, DecidableEq

/-- The list comprehension of `get_pr_templates`: reads each template file in
catalog order; the first read that raises aborts the whole listing (the
exception propagates — there is no `try/except` in this tool). -/
def readTemplates (read : String → Except String String) :
    List (String × String) → Except String (List Template)
  | [] => .ok []
  | ft :: rest =>
    match read ft.1 with
    | .error e => .error e
    | .ok c =>
      match readTemplates read rest with
      | .error e => .error e
      | .ok ts => .ok ({ filename := ft.1, type := ft.2, content := c } :: ts)

/-- `get_pr_templates()`: lists `DEFAULT_TEMPLATES` with file contents. -/
def get_pr_templates (read : String → Except String String) :
    Except String (List Template) :=
  readTemplates read DEFAULT_TEMPLATES

/-- The suggestion payload of `suggest_template`. -/
structure Suggestion where
  recommended_template : Template
  reasoning : String
  template_content : String
  usage_hint : String
deriving Repr, DecidableEq

/-- `suggest_template(changes_summary, change_type)`: lower-cases the type,
maps it through `TYPE_MAPPING` with default `"feature.md"`, picks the first
listed template with that filename (Python evaluates the `next(...)` default
`templates[0]` eagerly, so an empty listing raises `IndexError`), and builds
the suggestion.  An exception from `get_pr_templates` propagates. -/
def suggest_template (read : String → Except String String)
    (changes_summary change_type : String) : Except String Suggestion :=
  match get_pr_templates read with
  | .error e => .error e
  | .ok templates =>
    match templates with
    | [] => .error "IndexError: list index out of range"
    | t0 :: _ =>
      let template_file := (dictGet TYPE_MAPPING (pyToLower change_type)).getD "feature.md"
      let selected := (templates.find? (fun t => t.filename == template_file)).getD t0
      .ok
        { recommended_template := selected
          reasoning := "Based on your analysis: \x27" ++ changes_summary ++
            "\x27, this appears to be a " ++ change_type ++ " change."
          template_content := selected.content
          usage_hint := "Claude can help you fill out this template based on the specific changes in your PR." }

/-! ## get_recent_actions_events -/

/-- The event store file: `none` = file absent, `some (.error m)` = present
but `json.load` raises, `some (.ok events)` = parsed list. -/
abbrev EventStore := Option (Except String (List Event))

/-- `get_recent_actions_events(limit)`: absent file returns the empty list
payload; a parse failure propagates (no `try/except`); otherwise Python's
`events[-limit:]` is applied when `limit > 0`. -/
def get_recent_actions_events (store : EventStore) (limit : Int) :
    Except String (List Event) :=
  match store with
  | none => .ok []
  | some (.error msg) => .error msg
  | some (.ok events) =>
    .ok (if limit > 0 then events.drop (events.length - limit.toNat) else events)

/-! ## get_workflow_status -/

/-- The summary record built from one event's `workflow_run` fields. -/
def summaryOfEvent (e : Event) (r : WorkflowRun) : WorkflowSummary :=
  { name := r.name
    status := r.status
    conclusion := r.conclusion
    updated_at := r.updated_at
    url := r.html_url
    repository := e.repository_full_name }

/-- Events paired with their `workflow_run`, keeping only events that carry
one (the `workflow_run is not None` filter). -/
def runEvents (events : List Event) : List (Event × WorkflowRun) :=
  events.filterMap (fun e => e.workflow_run.map (fun r => (e, r)))

/-- The `if workflow_name:` filter — Python truthiness: `None` and the empty
string both skip the filter. -/
def applyNameFilter (workflow_name : Option String)
    (wes : List (Event × WorkflowRun)) : List (Event × WorkflowRun) :=
  match workflow_name with
  | none => wes
  | some wn => if wn = "" then wes else wes.filter (fun p => p.2.name = wn)

/-- One step of the `workflows` dict update: insert the name if absent,
replace only when the incoming `updated_at` is strictly greater. -/
def updateWorkflows (ws : List (String × WorkflowSummary)) (e : Event)
    (r : WorkflowRun) : List (String × WorkflowSummary) :=
  match dictGet ws r.name with
  | none => ws ++ [(r.name, summaryOfEvent e r)]
  | some s =>
    if pyLt s.updated_at r.updated_at then
      ws.map (fun p => if p.1 = r.name then (r.name, summaryOfEvent e r) else p)
    else ws

/-- `get_workflow_status(workflow_name)`: absent store or empty parsed list
give the informational message payload; a parse failure propagates; else
filter, fold into the insertion-ordered `workflows` dict, and emit its
values. -/
def get_workflow_status (store : EventStore) (workflow_name : Option String) :
    Except String StatusResult :=
  match store with
  | none => .ok (.message "No GitHub Action events found.")
  | some (.error msg) => .error msg
  | some (.ok events) =>
    if events.isEmpty then .ok (.message "No GitHub Action events found.")
    else
      let wes := applyNameFilter workflow_name (runEvents events)
      let workflows := wes.foldl (fun ws p => updateWorkflows ws p.1 p.2) []
      .ok (.summaries (workflows.map Prod.snd))

/-- The events contributing to the summary of name `n` in a call with
name filter `wn`: the run-carrying events surviving the filter whose run
name is `n`. -/
def contributing (events : List Event) (wn : Option String) (n : String) :
    List (Event × WorkflowRun) :=
  (applyNameFilter wn (runEvents events)).filter (fun p => p.2.name = n)

/-- Per-name view of one `updateWorkflows` step: the summary kept for a
single name after one more contributing event arrives. -/
def applyRun (cur : Option WorkflowSummary) (p : Event × WorkflowRun) :
    WorkflowSummary :=
  match cur with
  | none => summaryOfEvent p.1 p.2
  | some s => if pyLt s.updated_at p.2.updated_at then summaryOfEvent p.1 p.2 else s

/-- Folding the per-name step over a group of contributing events. -/
def groupFold (cur : Option WorkflowSummary) (qs : List (Event × WorkflowRun)) :
    Option WorkflowSummary :=
  qs.foldl (fun c p => some (applyRun c p)) cur

/-- The contributing event the strict-greater-than comparison keeps:
starting from `p`, replace only when a strictly larger `updated_at`
arrives. -/
def bestRun (p : Event × WorkflowRun) (qs : List (Event × WorkflowRun)) :
    Event × WorkflowRun :=
  qs.foldl (fun b q => if pyLt b.2.updated_at q.2.updated_at then q else b) p

/-! ## Theorems -/

/-! ### Order facts about the Python string comparison -/

lemma charListLt_iff (l m : List Char) :
    charListLt l m = true ↔ List.Lex (· < ·) l m := by
  induction l generalizing m with
  | nil =>
    cases m with
    | nil =>
      exact iff_of_false (by simp [charListLt]) (List.Lex.not_nil_right _ _)
    | cons b bs =>
      exact iff_of_true rfl List.Lex.nil
  | cons a as ih =>
    cases m with
    | nil =>
      exact iff_of_false (by simp [charListLt]) (List.Lex.not_nil_right _ _)
    | cons b bs =>
      rcases lt_trichotomy a b with h | h | h
      · exact iff_of_true (by simp [charListLt, h]) (List.Lex.rel h)
      · subst h
        have hred : charListLt (a :: as) (a :: bs) = charListLt as bs := by
          simp [charListLt, lt_irrefl]
        rw [hred, ih, List.Lex.cons_iff]
      · refine iff_of_false (by simp [charListLt, h, lt_asymm h]) ?_
        intro hl
        cases hl with
        | rel h' => exact absurd h' (lt_asymm h)
        | cons h' => exact absurd h (lt_irrefl a)

lemma pyLt_irrefl (a : String) : pyLt a a = false := by
  have hirr : IsIrrefl (List Char) (List.Lex (· < ·)) := inferInstance
  rw [← Bool.not_eq_true, pyLt, charListLt_iff]
  exact hirr.irrefl a.data

lemma pyLt_asymm {a b : String} (h : pyLt a b = true) : pyLt b a = false := by
  have hasym : IsAsymm (List Char) (List.Lex (· < ·)) := inferInstance
  rw [pyLt, charListLt_iff] at h
  rw [← Bool.not_eq_true, pyLt, charListLt_iff]
  exact hasym.asymm _ _ h

lemma pyLt_of_lt_of_nlt {a b c : String} (h1 : pyLt a b = true)
    (h2 : pyLt c b = false) : pyLt a c = true := by
  have htri : IsTrichotomous (List Char) (List.Lex (· < ·)) := inferInstance
  have htr : IsTrans (List Char) (List.Lex (· < ·)) := inferInstance
  rw [pyLt, charListLt_iff] at h1
  rw [← Bool.not_eq_true, pyLt, charListLt_iff] at h2
  rw [pyLt, charListLt_iff]
  rcases htri.trichotomous a.data c.data with h | h | h
  · exact h
  · exact absurd (h ▸ h1) h2
  · exact absurd (htr.trans _ _ _ h h1) h2

lemma pyLt_of_nlt_of_lt {a b c : String} (h1 : pyLt a c = true)
    (h2 : pyLt a b = false) : pyLt b c = true := by
  have htri : IsTrichotomous (List Char) (List.Lex (· < ·)) := inferInstance
  have htr : IsTrans (List Char) (List.Lex (· < ·)) := inferInstance
  rw [pyLt, charListLt_iff] at h1
  rw [← Bool.not_eq_true, pyLt, charListLt_iff] at h2
  rw [pyLt, charListLt_iff]
  rcases htri.trichotomous b.data c.data with h | h | h
  · exact h
  · exact absurd (h.symm ▸ h1) h2
  · exact absurd (htr.trans _ _ _ h1 h) h2

/-! ### The per-name fold keeps the first event attaining the maximum -/

lemma summaryOfEvent_updated_at (e : Event) (r : WorkflowRun) :
    (summaryOfEvent e r).updated_at = r.updated_at := rfl

lemma groupFold_some (p : Event × WorkflowRun) (qs : List (Event × WorkflowRun)) :
    groupFold (some (summaryOfEvent p.1 p.2)) qs =
      some (summaryOfEvent (bestRun p qs).1 (bestRun p qs).2) := by
  induction qs generalizing p with
  | nil => rfl
  | cons q qs ih =>
    have hstep : applyRun (some (summaryOfEvent p.1 p.2)) q =
        summaryOfEvent (if pyLt p.2.updated_at q.2.updated_at then q else p).1
          (if pyLt p.2.updated_at q.2.updated_at then q else p).2 := by
      by_cases hc : pyLt p.2.updated_at q.2.updated_at
      · simp [applyRun, summaryOfEvent_updated_at, hc]
      · simp [applyRun, summaryOfEvent_updated_at, hc]
    have h1 : groupFold (some (summaryOfEvent p.1 p.2)) (q :: qs) =
        groupFold (some (applyRun (some (summaryOfEvent p.1 p.2)) q)) qs := rfl
    have h2 : bestRun p (q :: qs) =
        bestRun (if pyLt p.2.updated_at q.2.updated_at then q else p) qs := rfl
    rw [h1, hstep, ih, h2]

lemma bestRun_spec (p : Event × WorkflowRun) (qs : List (Event × WorkflowRun)) :
    ∃ as bs, p :: qs = as ++ bestRun p qs :: bs ∧
      (∀ x ∈ as, pyLt x.2.updated_at (bestRun p qs).2.updated_at = true) ∧
      (∀ x ∈ p :: qs, pyLt (bestRun p qs).2.updated_at x.2.updated_at = false) := by
  induction qs generalizing p with
  | nil =>
    refine ⟨[], [], rfl, by simp, ?_⟩
    intro x hx
    rw [List.mem_singleton] at hx
    subst hx
    exact pyLt_irrefl _
  | cons q qs ih =>
    by_cases hc : pyLt p.2.updated_at q.2.updated_at
    · have hb : bestRun p (q :: qs) = bestRun q qs := by
        show bestRun (if pyLt p.2.updated_at q.2.updated_at then q else p) qs = _
        rw [if_pos hc]
      obtain ⟨as, bs, hdec, hstrict, hub⟩ := ih q
      have hqle : pyLt (bestRun q qs).2.updated_at q.2.updated_at = false :=
        hub q (List.mem_cons_self _ _)
      refine ⟨p :: as, bs, ?_, ?_, ?_⟩
      · rw [hb, List.cons_append, ← hdec]
      · intro x hx
        rw [hb]
        rcases List.mem_cons.mp hx with rfl | hx
        · exact pyLt_of_lt_of_nlt hc hqle
        · exact hstrict x hx
      · intro x hx
        rw [hb]
        rcases List.mem_cons.mp hx with rfl | hx
        · exact pyLt_asymm (pyLt_of_lt_of_nlt hc hqle)
        · exact hub x hx
    · have hb : bestRun p (q :: qs) = bestRun p qs := by
        show bestRun (if pyLt p.2.updated_at q.2.updated_at then q else p) qs = _
        rw [if_neg hc]
      have hcf : pyLt p.2.updated_at q.2.updated_at = false :=
        Bool.eq_false_iff.mpr hc
      obtain ⟨as, bs, hdec, hstrict, hub⟩ := ih p
      have hple : pyLt (bestRun p qs).2.updated_at p.2.updated_at = false :=
        hub p (List.mem_cons_self _ _)
      cases as with
      | nil =>
        have hbp : bestRun p qs = p := (List.cons.injEq _ _ _ _ |>.mp hdec.symm).1
        refine ⟨[], q :: qs, ?_, by simp, ?_⟩
        · rw [hb, hbp, List.nil_append]
        · intro x hx
          rw [hb, hbp]
          rcases List.mem_cons.mp hx with rfl | hx
          · exact pyLt_irrefl _
          · rcases List.mem_cons.mp hx with rfl | hx
            · exact hcf
            · have hx' := hub x (List.mem_cons_of_mem _ hx)
              rwa [hbp] at hx'
      | cons a as' =>
        have ha : a = p ∧ qs = as' ++ bestRun p qs :: bs := by
          have := (List.cons.injEq _ _ _ _ |>.mp hdec)
          exact ⟨this.1.symm, this.2⟩
        obtain ⟨rfl, hqs⟩ := ha
        have hastrict : pyLt a.2.updated_at (bestRun a qs).2.updated_at = true :=
          hstrict a (List.mem_cons_self _ _)
        refine ⟨a :: q :: as', bs, ?_, ?_, ?_⟩
        · rw [hb, List.cons_append, List.cons_append, ← hqs]
        · intro x hx
          rw [hb]
          rcases List.mem_cons.mp hx with rfl | hx
          · exact hastrict
          · rcases List.mem_cons.mp hx with rfl | hx
            · exact pyLt_of_nlt_of_lt hastrict hcf
            · exact hstrict x (List.mem_cons_of_mem _ hx)
        · intro x hx
          rw [hb]
          rcases List.mem_cons.mp hx with rfl | hx
          · exact hple
          · rcases List.mem_cons.mp hx with rfl | hx
            · exact pyLt_asymm (pyLt_of_nlt_of_lt hastrict hcf)
            · exact hub x (List.mem_cons_of_mem _ hx)

/-! ### The insertion-ordered dict, viewed through `dictGet` -/

lemma dictGet_eq_none_iff {β : Type} (ws : List (String × β)) (n : String) :
    dictGet ws n = none ↔ n ∉ ws.map Prod.fst := by
  induction ws with
  | nil => simp [dictGet]
  | cons a ws ih =>
    obtain ⟨k, v⟩ := a
    by_cases hn : n = k
    · subst hn; simp [dictGet]
    · simp [dictGet, hn, ih]

lemma dictGet_append_single {β : Type} (ws : List (String × β)) (k n : String)
    (v : β) :
    dictGet (ws ++ [(k, v)]) n =
      match dictGet ws n with
      | some w => some w
      | none => if n = k then some v else none := by
  induction ws with
  | nil => simp [dictGet]
  | cons a ws ih =>
    obtain ⟨k', v'⟩ := a
    by_cases hn : n = k'
    · simp [dictGet, hn]
    · simp [dictGet, hn, ih]

lemma dictGet_cons {β : Type} (k : String) (v : β) (rest : List (String × β))
    (n : String) :
    dictGet ((k, v) :: rest) n = if n = k then some v else dictGet rest n := rfl

lemma dictGet_map_replace (ws : List (String × WorkflowSummary)) (m : String)
    (w : WorkflowSummary) (n : String) :
    dictGet (ws.map (fun p => if p.1 = m then (m, w) else p)) n =
      if n = m then (dictGet ws n).map (fun _ => w) else dictGet ws n := by
  induction ws with
  | nil => simp [dictGet]
  | cons a ws ih =>
    obtain ⟨k, v⟩ := a
    rw [List.map_cons]
    by_cases hk : k = m
    · subst hk
      rw [show (if (k, v).1 = k then (k, w) else (k, v)) = (k, w) from if_pos rfl]
      by_cases hn : n = k <;> simp [dictGet_cons, hn, ih]
    · rw [show (if (k, v).1 = m then (m, w) else (k, v)) = (k, v) from if_neg hk]
      by_cases hn : n = k
      · subst hn
        have hnm : ¬ n = m := hk
        simp [dictGet_cons, hnm]
      · simp [dictGet_cons, hn, ih]

lemma updateWorkflows_of_none (ws : List (String × WorkflowSummary)) (e : Event)
    (r : WorkflowRun) (hws : dictGet ws r.name = none) :
    updateWorkflows ws e r = ws ++ [(r.name, summaryOfEvent e r)] := by
  unfold updateWorkflows; rw [hws]

lemma updateWorkflows_of_some_lt (ws : List (String × WorkflowSummary)) (e : Event)
    (r : WorkflowRun) (s : WorkflowSummary) (hws : dictGet ws r.name = some s)
    (hlt : pyLt s.updated_at r.updated_at = true) :
    updateWorkflows ws e r =
      ws.map (fun p => if p.1 = r.name then (r.name, summaryOfEvent e r) else p) := by
  unfold updateWorkflows; rw [hws]; simp [hlt]

lemma updateWorkflows_of_some_nlt (ws : List (String × WorkflowSummary)) (e : Event)
    (r : WorkflowRun) (s : WorkflowSummary) (hws : dictGet ws r.name = some s)
    (hlt : pyLt s.updated_at r.updated_at = false) :
    updateWorkflows ws e r = ws := by
  unfold updateWorkflows; rw [hws]; simp [hlt]

lemma dictGet_updateWorkflows (ws : List (String × WorkflowSummary)) (e : Event)
    (r : WorkflowRun) (n : String) :
    dictGet (updateWorkflows ws e r) n =
      if n = r.name then some (applyRun (dictGet ws n) (e, r)) else dictGet ws n := by
  cases hws : dictGet ws r.name with
  | none =>
    rw [updateWorkflows_of_none ws e r hws, dictGet_append_single]
    by_cases hn : n = r.name
    · subst hn
      rw [hws]
      simp [applyRun]
    · rw [if_neg hn]
      cases hgn : dictGet ws n with
      | none => simp [hn]
      | some w => simp [hn]
  | some s =>
    rcases Bool.eq_false_or_eq_true (pyLt s.updated_at r.updated_at) with hlt | hlt
    · rw [updateWorkflows_of_some_lt ws e r s hws hlt, dictGet_map_replace]
      by_cases hn : n = r.name
      · subst hn
        rw [if_pos rfl, if_pos rfl, hws]
        simp [applyRun, hlt]
      · rw [if_neg hn, if_neg hn]
    · rw [updateWorkflows_of_some_nlt ws e r s hws hlt]
      by_cases hn : n = r.name
      · subst hn
        rw [hws, if_pos rfl]
        simp [applyRun, hlt]
      · rw [if_neg hn]

lemma dictGet_foldl_update (ps : List (Event × WorkflowRun))
    (ws : List (String × WorkflowSummary)) (n : String) :
    dictGet (ps.foldl (fun acc p => updateWorkflows acc p.1 p.2) ws) n =
      groupFold (dictGet ws n) (ps.filter (fun p => p.2.name = n)) := by
  induction ps generalizing ws with
  | nil => rfl
  | cons p ps ih =>
    rw [List.foldl_cons, ih]
    by_cases hn : p.2.name = n
    · rw [List.filter_cons_of_pos (by simp [hn])]
      have hupd : dictGet (updateWorkflows ws p.1 p.2) n =
          some (applyRun (dictGet ws n) p) := by
        rw [dictGet_updateWorkflows, if_pos hn.symm]
      rw [hupd]
      rfl
    · rw [List.filter_cons_of_neg (by simp [hn])]
      rw [dictGet_updateWorkflows, if_neg (fun h => hn h.symm)]

lemma keys_updateWorkflows (ws : List (String × WorkflowSummary)) (e : Event)
    (r : WorkflowRun) (h : (ws.map Prod.fst).Nodup) :
    ((updateWorkflows ws e r).map Prod.fst).Nodup := by
  cases hws : dictGet ws r.name with
  | none =>
    have hnotin : r.name ∉ ws.map Prod.fst := (dictGet_eq_none_iff ws r.name).mp hws
    rw [updateWorkflows_of_none ws e r hws, List.map_append]
    simp only [List.map_cons, List.map_nil]
    rw [show ws.map Prod.fst ++ [r.name] = ws.map Prod.fst ++ r.name :: [] from rfl,
      List.nodup_middle]
    simp [List.nodup_cons, hnotin, h]
  | some s =>
    rcases Bool.eq_false_or_eq_true (pyLt s.updated_at r.updated_at) with hlt | hlt
    · rw [updateWorkflows_of_some_lt ws e r s hws hlt]
      have hkeys : (ws.map
          (fun p => if p.1 = r.name then (r.name, summaryOfEvent e r) else p)).map
            Prod.fst = ws.map Prod.fst := by
        rw [List.map_map]
        apply List.map_congr_left
        intro p hp
        by_cases h1 : p.1 = r.name
        · simp [h1]
        · simp [h1]
      rw [hkeys]; exact h
    · rw [updateWorkflows_of_some_nlt ws e r s hws hlt]; exact h

lemma snd_name_updateWorkflows (ws : List (String × WorkflowSummary)) (e : Event)
    (r : WorkflowRun) (h : ∀ q ∈ ws, (Prod.snd q).name = q.1) :
    ∀ q ∈ updateWorkflows ws e r, (Prod.snd q).name = q.1 := by
  cases hws : dictGet ws r.name with
  | none =>
    rw [updateWorkflows_of_none ws e r hws]
    intro q hq
    rcases List.mem_append.mp hq with hq | hq
    · exact h q hq
    · rw [List.mem_singleton] at hq; subst hq; rfl
  | some s =>
    rcases Bool.eq_false_or_eq_true (pyLt s.updated_at r.updated_at) with hlt | hlt
    · rw [updateWorkflows_of_some_lt ws e r s hws hlt]
      intro q hq
      rcases List.mem_map.mp hq with ⟨q0, hq0, rfl⟩
      by_cases h1 : q0.1 = r.name
      · simp [h1, summaryOfEvent]
      · simp only [if_neg h1]
        exact h q0 hq0
    · rw [updateWorkflows_of_some_nlt ws e r s hws hlt]; exact h

lemma foldl_update_keys_nodup (ps : List (Event × WorkflowRun))
    (ws : List (String × WorkflowSummary)) (h : (ws.map Prod.fst).Nodup) :
    ((ps.foldl (fun acc p => updateWorkflows acc p.1 p.2) ws).map Prod.fst).Nodup := by
  induction ps generalizing ws with
  | nil => exact h
  | cons p ps ih => exact ih _ (keys_updateWorkflows _ _ _ h)

lemma foldl_update_snd_name (ps : List (Event × WorkflowRun))
    (ws : List (String × WorkflowSummary)) (h : ∀ q ∈ ws, (Prod.snd q).name = q.1) :
    ∀ q ∈ ps.foldl (fun acc p => updateWorkflows acc p.1 p.2) ws,
      (Prod.snd q).name = q.1 := by
  induction ps generalizing ws with
  | nil => exact h
  | cons p ps ih => exact ih _ (snd_name_updateWorkflows _ _ _ h)

lemma dictGet_of_mem_nodup (ws : List (String × WorkflowSummary))
    (h : (ws.map Prod.fst).Nodup) {k : String} {v : WorkflowSummary}
    (hm : (k, v) ∈ ws) : dictGet ws k = some v := by
  induction ws with
  | nil => cases hm
  | cons a ws ih =>
    obtain ⟨k', v'⟩ := a
    rw [List.map_cons, List.nodup_cons] at h
    rcases List.mem_cons.mp hm with heq | hm'
    · simp only [Prod.mk.injEq] at heq
      obtain ⟨rfl, rfl⟩ := heq
      simp [dictGet]
    · have hk : k ≠ k' := by
        rintro rfl
        exact h.1 (List.mem_map.mpr ⟨(k, v), hm', rfl⟩)
      simp only [dictGet, if_neg hk]
      exact ih h.2 hm'

lemma mem_updateWorkflows (ws : List (String × WorkflowSummary)) (e : Event)
    (r : WorkflowRun) (q : String × WorkflowSummary)
    (hq : q ∈ updateWorkflows ws e r) :
    q ∈ ws ∨ q = (r.name, summaryOfEvent e r) := by
  cases hws : dictGet ws r.name with
  | none =>
    rw [updateWorkflows_of_none ws e r hws] at hq
    rcases List.mem_append.mp hq with hq | hq
    · exact Or.inl hq
    · rw [List.mem_singleton] at hq; exact Or.inr hq
  | some s =>
    rcases Bool.eq_false_or_eq_true (pyLt s.updated_at r.updated_at) with hlt | hlt
    · rw [updateWorkflows_of_some_lt ws e r s hws hlt] at hq
      rcases List.mem_map.mp hq with ⟨q0, hq0, rfl⟩
      by_cases h1 : q0.1 = r.name
      · right; simp [h1]
      · left; simpa [h1] using hq0
    · rw [updateWorkflows_of_some_nlt ws e r s hws hlt] at hq; exact Or.inl hq

lemma mem_foldl_update (ps : List (Event × WorkflowRun))
    (ws : List (String × WorkflowSummary)) (q : String × WorkflowSummary)
    (hq : q ∈ ps.foldl (fun acc p => updateWorkflows acc p.1 p.2) ws) :
    q ∈ ws ∨ ∃ p ∈ ps, q = (p.2.name, summaryOfEvent p.1 p.2) := by
  induction ps generalizing ws with
  | nil => exact Or.inl hq
  | cons p ps ih =>
    rcases ih _ hq with h1 | ⟨p', hp', he⟩
    · rcases mem_updateWorkflows _ _ _ _ h1 with h2 | h2
      · exact Or.inl h2
      · exact Or.inr ⟨p, List.mem_cons_self _ _, h2⟩
    · exact Or.inr ⟨p', List.mem_cons_of_mem _ hp', he⟩

/-- C1: with `include_diff` true and a diff whose line count exceeds
`max_diff_lines`, the returned diff text is exactly the first
`max_diff_lines` original lines followed by the single truncation notice,
`truncated` is true, and `total_diff_lines` is the full diff's line count. -/
theorem analyze_file_changes_truncates (env : GitEnv) (bb : String)
    (maxL : Nat) (files_out : String) (hgit : env.name_status = .ok files_out)
    (h : lineCount env.diff > maxL) :
    ∃ a, analyze_file_changes env bb true maxL = .payload a ∧
      a.diff = pyJoin "\n" ((pySplitLines env.diff).take maxL) ++
        truncationNotice maxL (lineCount env.diff) ∧
      a.truncated = true ∧
      a.total_diff_lines = lineCount env.diff := by
  have h' : (pySplitLines env.diff).length > maxL := h
  simp only [analyze_file_changes, hgit]
  refine ⟨_, rfl, ?_, ?_, ?_⟩
  · simp [h', lineCount]
  · simp [h']
  · simp [lineCount]

/-- Closed instance of `analyze_file_changes_truncates` at a concrete
4-line diff capped at 2 lines. -/
theorem analyze_file_changes_truncates_witness :
    ∃ a, analyze_file_changes ⟨.ok "M a.py", "1 file", "l1\nl2\nl3\nl4", "c1 msg"⟩
        "main" true 2 = .payload a ∧
      a.diff = pyJoin "\n"
          ((pySplitLines "l1\nl2\nl3\nl4").take 2) ++
        truncationNotice 2 (lineCount "l1\nl2\nl3\nl4") ∧
      a.truncated = true ∧
      a.total_diff_lines = lineCount "l1\nl2\nl3\nl4" :=
  analyze_file_changes_truncates ⟨.ok "M a.py", "1 file", "l1\nl2\nl3\nl4", "c1 msg"⟩
    "main" 2 "M a.py" rfl (by decide)

/-- C7: with `include_diff` true and a diff whose line count is at most
`max_diff_lines`, the diff text is returned unmodified, `truncated` is
false, and `total_diff_lines` is the exact line count. -/
theorem analyze_file_changes_no_truncation (env : GitEnv) (bb : String)
    (maxL : Nat) (files_out : String) (hgit : env.name_status = .ok files_out)
    (h : lineCount env.diff ≤ maxL) :
    ∃ a, analyze_file_changes env bb true maxL = .payload a ∧
      a.diff = env.diff ∧
      a.truncated = false ∧
      a.total_diff_lines = lineCount env.diff := by
  have h' : ¬ ((pySplitLines env.diff).length > maxL) := not_lt.mpr h
  simp only [analyze_file_changes, hgit]
  refine ⟨_, rfl, ?_, ?_, ?_⟩
  · simp [h']
  · simp [h']
  · simp [lineCount]

/-- Closed instance of `analyze_file_changes_no_truncation` at a concrete
2-line diff with the cap at 500. -/
theorem analyze_file_changes_no_truncation_witness :
    ∃ a, analyze_file_changes ⟨.ok "M a.py", "1 file", "l1\nl2", "c1 msg"⟩
        "main" true 500 = .payload a ∧
      a.diff = "l1\nl2" ∧
      a.truncated = false ∧
      a.total_diff_lines = lineCount "l1\nl2" :=
  analyze_file_changes_no_truncation ⟨.ok "M a.py", "1 file", "l1\nl2", "c1 msg"⟩
    "main" 500 "M a.py" rfl (by decide)

/-- C5: on a parsed store, a non-positive `limit` returns the entire stored
sequence unmodified, and a positive `limit` returns exactly the last
`min limit n` elements in original order (a suffix of the stored list of
that length). -/
theorem get_recent_actions_events_slice (events : List Event) (limit : Int) :
    (limit ≤ 0 → get_recent_actions_events (some (.ok events)) limit = .ok events) ∧
    (0 < limit → ∃ res,
      get_recent_actions_events (some (.ok events)) limit = .ok res ∧
      res.length = min limit.toNat events.length ∧ res <:+ events) := by
  constructor
  · intro hle
    simp [get_recent_actions_events, not_lt.mpr hle]
  · intro hpos
    have hcomp : get_recent_actions_events (some (.ok events)) limit =
        .ok (events.drop (events.length - limit.toNat)) := by
      simp [get_recent_actions_events, hpos]
    refine ⟨_, hcomp, ?_, List.drop_suffix _ _⟩
    simp only [List.length_drop]
    omega

/-- Closed instance of `get_recent_actions_events_slice`: a 3-event store
with `limit = 0` (full list) and `limit = 2` (last two). -/
theorem get_recent_actions_events_slice_witness :
    (get_recent_actions_events
      (some (.ok [⟨none, some "r1"⟩, ⟨none, some "r2"⟩, ⟨none, some "r3"⟩])) 0 =
      .ok [⟨none, some "r1"⟩, ⟨none, some "r2"⟩, ⟨none, some "r3"⟩]) ∧
    (∃ res, get_recent_actions_events
      (some (.ok [⟨none, some "r1"⟩, ⟨none, some "r2"⟩, ⟨none, some "r3"⟩])) 2 =
      .ok res ∧
      res.length = min (Int.toNat 2)
        ([(⟨none, some "r1"⟩ : Event), ⟨none, some "r2"⟩, ⟨none, some "r3"⟩]).length ∧
      res <:+ [⟨none, some "r1"⟩, ⟨none, some "r2"⟩, ⟨none, some "r3"⟩]) :=
  ⟨(get_recent_actions_events_slice
      [⟨none, some "r1"⟩, ⟨none, some "r2"⟩, ⟨none, some "r3"⟩] 0).1 (by decide),
   (get_recent_actions_events_slice
      [⟨none, some "r1"⟩, ⟨none, some "r2"⟩, ⟨none, some "r3"⟩] 2).2 (by decide)⟩

/-- C6: with the event store file absent, `get_recent_actions_events`
returns the empty list payload and `get_workflow_status` returns the
informational message payload; neither propagates an exception and neither
builds an error payload. -/
theorem absent_store_returns_empty (limit : Int) (wn : Option String) :
    get_recent_actions_events none limit = .ok [] ∧
    get_workflow_status none wn = .ok (.message "No GitHub Action events found.") :=
  ⟨rfl, rfl⟩

/-- C10: the empty string as `workflow_name` behaves exactly like an absent
`workflow_name` (Python truthiness skips the name filter for both). -/
theorem get_workflow_status_empty_name_eq_none (store : EventStore) :
    get_workflow_status store (some "") = get_workflow_status store none := by
  rcases store with _ | p
  · rfl
  · rcases p with m | evs
    · rfl
    · simp [get_workflow_status, applyNameFilter]

/-- C3 counterexample: `get_pr_templates` has no `try/except`; an unreadable
template file makes the raised exception escape the operation instead of
being returned as an `{"error": ...}` payload. -/
theorem get_pr_templates_propagates_read_failure :
    get_pr_templates (fun _ => .error "Permission denied") =
      .error "Permission denied" := rfl

/-- C3 amended: only `analyze_file_changes` converts internal failures into
a returned error payload; the other four operations propagate exceptions
(a failing read of the first template file, an unparseable event store) to
their caller. -/
theorem error_propagation_per_operation :
    (∀ env bb incl maxL stderr, env.name_status = Except.error stderr →
      analyze_file_changes env bb incl maxL =
        .errorPayload ("Git error: " ++ stderr)) ∧
    (∀ read msg, read "bug.md" = .error msg →
      get_pr_templates read = .error msg) ∧
    (∀ read msg cs ct, read "bug.md" = .error msg →
      suggest_template read cs ct = .error msg) ∧
    (∀ msg limit, get_recent_actions_events (some (.error msg)) limit = .error msg) ∧
    (∀ msg wn, get_workflow_status (some (.error msg)) wn = .error msg) := by
  refine ⟨?_, ?_, ?_, fun _ _ => rfl, fun _ _ => rfl⟩
  · intro env bb incl maxL stderr hgit
    simp [analyze_file_changes, hgit]
  · intro read msg hread
    simp [get_pr_templates, DEFAULT_TEMPLATES, readTemplates, hread]
  · intro read msg cs ct hread
    have : get_pr_templates read = .error msg := by
      simp [get_pr_templates, DEFAULT_TEMPLATES, readTemplates, hread]
    simp [suggest_template, this]

/-- Closed instance of `error_propagation_per_operation` at concrete
failures for each operation. -/
theorem error_propagation_per_operation_witness :
    (analyze_file_changes ⟨.error "fatal: bad revision", "", "", ""⟩ "main" true 500 =
      .errorPayload ("Git error: " ++ "fatal: bad revision")) ∧
    (get_pr_templates (fun _ => .error "unreadable") = .error "unreadable") ∧
    (suggest_template (fun _ => .error "unreadable") "x" "bug" = .error "unreadable") ∧
    (get_recent_actions_events (some (.error "Expecting value")) 10 =
      .error "Expecting value") ∧
    (get_workflow_status (some (.error "Expecting value")) none =
      .error "Expecting value") :=
  ⟨error_propagation_per_operation.1 ⟨.error "fatal: bad revision", "", "", ""⟩
      "main" true 500 "fatal: bad revision" rfl,
   error_propagation_per_operation.2.1 (fun _ => .error "unreadable") "unreadable" rfl,
   error_propagation_per_operation.2.2.1 (fun _ => .error "unreadable") "unreadable"
      "x" "bug" rfl,
   error_propagation_per_operation.2.2.2.1 "Expecting value" 10,
   error_propagation_per_operation.2.2.2.2 "Expecting value" none⟩

/-! ### Destructuring a summaries result of get_workflow_status -/

lemma get_workflow_status_summaries_eq {events : List Event} {wn : Option String}
    {l : List WorkflowSummary}
    (h : get_workflow_status (some (.ok events)) wn = .ok (.summaries l)) :
    l = ((applyNameFilter wn (runEvents events)).foldl
          (fun ws p => updateWorkflows ws p.1 p.2) []).map Prod.snd := by
  simp only [get_workflow_status] at h
  split at h
  · exact absurd h (by simp)
  · simp only [Except.ok.injEq, StatusResult.summaries.injEq] at h
    exact h.symm

lemma mem_runEvents {events : List Event} {p : Event × WorkflowRun}
    (hp : p ∈ runEvents events) :
    p.1 ∈ events ∧ p.1.workflow_run = some p.2 := by
  unfold runEvents at hp
  obtain ⟨e, he, hmap⟩ := List.mem_filterMap.mp hp
  cases hr : e.workflow_run with
  | none => rw [hr] at hmap; cases hmap
  | some r =>
    rw [hr] at hmap
    simp only [Option.map_some'] at hmap
    obtain rfl : (e, r) = p := Option.some.inj hmap
    exact ⟨he, hr⟩

lemma summary_origin {events : List Event} {wn : Option String}
    {l : List WorkflowSummary}
    (h : get_workflow_status (some (.ok events)) wn = .ok (.summaries l))
    {s : WorkflowSummary} (hs : s ∈ l) :
    ∃ p qs, contributing events wn s.name = p :: qs ∧
      s = summaryOfEvent (bestRun p qs).1 (bestRun p qs).2 := by
  have hl := get_workflow_status_summaries_eq h
  rw [hl] at hs
  obtain ⟨q, hqW, rfl⟩ := List.mem_map.mp hs
  have hnodup := foldl_update_keys_nodup
    (applyNameFilter wn (runEvents events)) [] (by simp)
  have hname := foldl_update_snd_name
    (applyNameFilter wn (runEvents events)) [] (by simp) q hqW
  have hget : dictGet ((applyNameFilter wn (runEvents events)).foldl
      (fun ws p => updateWorkflows ws p.1 p.2) []) q.1 = some q.2 :=
    dictGet_of_mem_nodup _ hnodup hqW
  rw [← hname, dictGet_foldl_update] at hget
  cases hgrp : (applyNameFilter wn (runEvents events)).filter
      (fun p => p.2.name = (Prod.snd q).name) with
  | nil => rw [hgrp] at hget; cases hget
  | cons p qs =>
    rw [hgrp] at hget
    have hred : groupFold (dictGet ([] : List (String × WorkflowSummary))
        (Prod.snd q).name) (p :: qs) =
        groupFold (some (summaryOfEvent p.1 p.2)) qs := rfl
    rw [hred, groupFold_some] at hget
    exact ⟨p, qs, hgrp, (Option.some.inj hget).symm⟩

/-- C2: any summaries result of `get_workflow_status` has at most one
summary per pipeline name, and each summary's `updated_at` is a maximal
element (in Python string comparison) of the `updated_at` values of the
events contributing to that name: it occurs among them and none is
strictly greater. -/
theorem get_workflow_status_unique_latest (events : List Event)
    (wn : Option String) (l : List WorkflowSummary)
    (h : get_workflow_status (some (.ok events)) wn = .ok (.summaries l)) :
    l.Pairwise (fun a b => a.name ≠ b.name) ∧
    ∀ s ∈ l,
      s.updated_at ∈ (contributing events wn s.name).map
        (fun p => p.2.updated_at) ∧
      ∀ u ∈ (contributing events wn s.name).map (fun p => p.2.updated_at),
        pyLt s.updated_at u = false := by
  constructor
  · have hl := get_workflow_status_summaries_eq h
    have hnodup := foldl_update_keys_nodup
      (applyNameFilter wn (runEvents events)) [] (by simp)
    have hname := foldl_update_snd_name
      (applyNameFilter wn (runEvents events)) [] (by simp)
    set W := (applyNameFilter wn (runEvents events)).foldl
      (fun ws p => updateWorkflows ws p.1 p.2) [] with hW
    have hmap : W.map (fun q => (Prod.snd q).name) = W.map Prod.fst :=
      List.map_congr_left (fun q hq => hname q hq)
    have hpn : W.Pairwise (fun a b => (Prod.snd a).name ≠ (Prod.snd b).name) := by
      have hnd : (W.map (fun q => (Prod.snd q).name)).Pairwise (· ≠ ·) :=
        hmap ▸ hnodup
      exact List.pairwise_map.mp hnd
    rw [hl, List.pairwise_map]
    exact hpn
  · intro s hs
    obtain ⟨p, qs, hgrp, hsum⟩ := summary_origin h hs
    obtain ⟨as, bs, hdec, hstrict, hub⟩ := bestRun_spec p qs
    have hbmem : bestRun p qs ∈ p :: qs := by
      rw [hdec]
      exact List.mem_append_right _ (List.mem_cons_self _ _)
    constructor
    · rw [hgrp, hsum]
      exact List.mem_map.mpr ⟨bestRun p qs, hbmem, rfl⟩
    · intro u hu
      rw [hgrp] at hu
      obtain ⟨x, hx, rfl⟩ := List.mem_map.mp hu
      rw [hsum]
      exact hub x hx

/-- Closed instance of `get_workflow_status_unique_latest`: a two-event log
for one pipeline with distinct timestamps yields a single summary carrying
the larger timestamp. -/
theorem get_workflow_status_unique_latest_witness :
    ([⟨"CI", "completed", some "failure", "2024-01-02T00:00:00Z", "u2", none⟩] :
        List WorkflowSummary).Pairwise (fun a b => a.name ≠ b.name) ∧
    ∀ s ∈ ([⟨"CI", "completed", some "failure", "2024-01-02T00:00:00Z", "u2",
        none⟩] : List WorkflowSummary),
      s.updated_at ∈ (contributing
        [⟨some ⟨"CI", "completed", some "success", "2024-01-01T00:00:00Z", "u1"⟩,
          none⟩,
         ⟨some ⟨"CI", "completed", some "failure", "2024-01-02T00:00:00Z", "u2"⟩,
          none⟩] none s.name).map (fun p => p.2.updated_at) ∧
      ∀ u ∈ (contributing
        [⟨some ⟨"CI", "completed", some "success", "2024-01-01T00:00:00Z", "u1"⟩,
          none⟩,
         ⟨some ⟨"CI", "completed", some "failure", "2024-01-02T00:00:00Z", "u2"⟩,
          none⟩] none s.name).map (fun p => p.2.updated_at),
        pyLt s.updated_at u = false :=
  get_workflow_status_unique_latest
    [⟨some ⟨"CI", "completed", some "success", "2024-01-01T00:00:00Z", "u1"⟩, none⟩,
     ⟨some ⟨"CI", "completed", some "failure", "2024-01-02T00:00:00Z", "u2"⟩, none⟩]
    none
    [⟨"CI", "completed", some "failure", "2024-01-02T00:00:00Z", "u2", none⟩]
    (by decide)

/-- C4 counterexample: two events for the same name with identical
`updated_at`; the emitted summary keeps the first-encountered event's
fields (url `u-first`), not the last-encountered one's, because the
comparison is strict greater-than. -/
theorem get_workflow_status_tie_keeps_first_seen :
    get_workflow_status (some (.ok [
      ⟨some ⟨"CI", "completed", some "success", "2024-01-01T00:00:00Z", "u-first"⟩,
        none⟩,
      ⟨some ⟨"CI", "in_progress", none, "2024-01-01T00:00:00Z", "u-second"⟩,
        none⟩])) none =
      .ok (.summaries [⟨"CI", "completed", some "success",
        "2024-01-01T00:00:00Z", "u-first", none⟩]) ∧
    get_workflow_status (some (.ok [
      ⟨some ⟨"CI", "completed", some "success", "2024-01-01T00:00:00Z", "u-first"⟩,
        none⟩,
      ⟨some ⟨"CI", "in_progress", none, "2024-01-01T00:00:00Z", "u-second"⟩,
        none⟩])) none ≠
      .ok (.summaries [⟨"CI", "in_progress", none,
        "2024-01-01T00:00:00Z", "u-second", none⟩]) := by
  constructor
  · decide
  · decide

/-- C4 amended: each emitted summary is taken from the first contributing
event attaining the group's maximal `updated_at`: every earlier event in
the group is strictly smaller, every later one is no greater, so on an
`updated_at` tie the first-encountered event wins (strict greater-than
comparison). -/
theorem get_workflow_status_first_attaining_max (events : List Event)
    (wn : Option String) (l : List WorkflowSummary) (s : WorkflowSummary)
    (h : get_workflow_status (some (.ok events)) wn = .ok (.summaries l))
    (hs : s ∈ l) :
    ∃ as p bs, contributing events wn s.name = as ++ p :: bs ∧
      s = summaryOfEvent p.1 p.2 ∧
      (∀ q ∈ as, pyLt q.2.updated_at p.2.updated_at = true) ∧
      (∀ q ∈ bs, pyLt p.2.updated_at q.2.updated_at = false) := by
  obtain ⟨p0, qs, hgrp, hsum⟩ := summary_origin h hs
  obtain ⟨as, bs, hdec, hstrict, hub⟩ := bestRun_spec p0 qs
  refine ⟨as, bestRun p0 qs, bs, ?_, hsum, hstrict, ?_⟩
  · rw [hgrp, hdec]
  · intro q hq
    refine hub q ?_
    rw [hdec]
    exact List.mem_append_right _ (List.mem_cons_of_mem _ hq)

/-- Closed instance of `get_workflow_status_first_attaining_max` at the
two-event tie of the counterexample: the decomposition puts the first
event in the middle with the second event after it. -/
theorem get_workflow_status_first_attaining_max_witness :
    ∃ as p bs, contributing [
      ⟨some ⟨"CI", "completed", some "success", "2024-01-01T00:00:00Z", "u-first"⟩,
        none⟩,
      ⟨some ⟨"CI", "in_progress", none, "2024-01-01T00:00:00Z", "u-second"⟩,
        none⟩] none
      (WorkflowSummary.name ⟨"CI", "completed", some "success",
        "2024-01-01T00:00:00Z", "u-first", none⟩) = as ++ p :: bs ∧
      (⟨"CI", "completed", some "success", "2024-01-01T00:00:00Z", "u-first",
        none⟩ : WorkflowSummary) = summaryOfEvent p.1 p.2 ∧
      (∀ q ∈ as, pyLt q.2.updated_at p.2.updated_at = true) ∧
      (∀ q ∈ bs, pyLt p.2.updated_at q.2.updated_at = false) :=
  get_workflow_status_first_attaining_max
    [⟨some ⟨"CI", "completed", some "success", "2024-01-01T00:00:00Z", "u-first"⟩,
       none⟩,
     ⟨some ⟨"CI", "in_progress", none, "2024-01-01T00:00:00Z", "u-second"⟩, none⟩]
    none
    [⟨"CI", "completed", some "success", "2024-01-01T00:00:00Z", "u-first", none⟩]
    ⟨"CI", "completed", some "success", "2024-01-01T00:00:00Z", "u-first", none⟩
    (by decide) (by decide)

/-- C8: with a non-empty `workflow_name`, every emitted summary carries
exactly that name and is built from an event whose `workflow_run` exists
and whose run name equals it exactly; no other event contributes. -/
theorem get_workflow_status_exact_name_filter (events : List Event) (w : String)
    (hw : w ≠ "") (l : List WorkflowSummary)
    (h : get_workflow_status (some (.ok events)) (some w) = .ok (.summaries l)) :
    ∀ s ∈ l, s.name = w ∧ ∃ e ∈ events, ∃ r, e.workflow_run = some r ∧
      r.name = w ∧ s = summaryOfEvent e r := by
  have hl := get_workflow_status_summaries_eq h
  intro s hs
  rw [hl] at hs
  obtain ⟨q, hq, rfl⟩ := List.mem_map.mp hs
  rcases mem_foldl_update _ _ _ hq with h1 | ⟨p, hp, rfl⟩
  · cases h1
  · have hps : applyNameFilter (some w) (runEvents events) =
        (runEvents events).filter (fun p => p.2.name = w) := by
      simp [applyNameFilter, hw]
    rw [hps] at hp
    have hname : p.2.name = w := by
      have := List.of_mem_filter hp
      simpa using this
    have hre := mem_runEvents (List.mem_of_mem_filter hp)
    exact ⟨by simpa [summaryOfEvent] using hname,
      p.1, hre.1, p.2, hre.2, hname, rfl⟩

/-- Closed instance of `get_workflow_status_exact_name_filter`: a log with
runs named deploy and build, filtered to deploy. -/
theorem get_workflow_status_exact_name_filter_witness :
    (⟨"deploy", "completed", some "success", "2024-01-01T00:00:00Z", "u1",
        none⟩ : WorkflowSummary).name = "deploy" ∧ ∃ e ∈ [
      (⟨some ⟨"deploy", "completed", some "success", "2024-01-01T00:00:00Z",
        "u1"⟩, none⟩ : Event),
      ⟨some ⟨"build", "completed", some "failure", "2024-01-02T00:00:00Z",
        "u2"⟩, none⟩], ∃ r, e.workflow_run = some r ∧
      r.name = "deploy" ∧
      (⟨"deploy", "completed", some "success", "2024-01-01T00:00:00Z", "u1",
        none⟩ : WorkflowSummary) = summaryOfEvent e r :=
  get_workflow_status_exact_name_filter
    [⟨some ⟨"deploy", "completed", some "success", "2024-01-01T00:00:00Z", "u1"⟩,
       none⟩,
     ⟨some ⟨"build", "completed", some "failure", "2024-01-02T00:00:00Z", "u2"⟩,
       none⟩]
    "deploy" (by decide)
    [⟨"deploy", "completed", some "success", "2024-01-01T00:00:00Z", "u1", none⟩]
    (by decide)
    ⟨"deploy", "completed", some "success", "2024-01-01T00:00:00Z", "u1", none⟩
    (by decide)

/-! ### suggest_template -/

lemma dictGet_mem_values {β : Type} (l : List (String × β)) (x : String) (k : β)
    (h : dictGet l x = some k) : k ∈ l.map Prod.snd := by
  induction l with
  | nil => cases h
  | cons a l ih =>
    obtain ⟨kk, v⟩ := a
    rw [dictGet_cons] at h
    by_cases hx : x = kk
    · rw [if_pos hx] at h
      simp [Option.some.inj h]
    · rw [if_neg hx] at h
      simp [ih h]

lemma dictGet_TYPE_MAPPING_mem_values (x k : String)
    (h : dictGet TYPE_MAPPING x = some k) :
    k = "bug.md" ∨ k = "feature.md" ∨ k = "docs.md" ∨ k = "refactor.md" ∨
    k = "test.md" ∨ k = "performance.md" ∨ k = "security.md" := by
  have hmem := dictGet_mem_values TYPE_MAPPING x k h
  simp [TYPE_MAPPING] at hmem
  tauto

lemma get_pr_templates_ok (read : String → Except String String)
    (content : String → String) (hread : ∀ fn, read fn = .ok (content fn)) :
    get_pr_templates read = .ok
      (DEFAULT_TEMPLATES.map (fun ft => ⟨ft.1, ft.2, content ft.1⟩)) := by
  simp only [get_pr_templates, DEFAULT_TEMPLATES, readTemplates, hread,
    List.map_cons, List.map_nil]

/-- C9: when every template file reads successfully, `suggest_template`
lower-cases `change_type`, looks it up in `TYPE_MAPPING`, and returns as
`template_content` the content of the mapped template file, falling back to
the feature template's content when the lookup misses. -/
theorem suggest_template_type_lookup (read : String → Except String String)
    (content : String → String) (hread : ∀ fn, read fn = .ok (content fn))
    (cs ct : String) :
    ∃ s, suggest_template read cs ct = .ok s ∧
      s.template_content =
        content ((dictGet TYPE_MAPPING (pyToLower ct)).getD "feature.md") ∧
      (dictGet TYPE_MAPPING (pyToLower ct) = none →
        s.template_content = content "feature.md") := by
  have htmpl := get_pr_templates_ok read content hread
  cases hk : dictGet TYPE_MAPPING (pyToLower ct) with
  | none =>
    have hcalc : suggest_template read cs ct = .ok
        { recommended_template := ⟨"feature.md", "Feature", content "feature.md"⟩
          reasoning := "Based on your analysis: \x27" ++ cs ++
            "\x27, this appears to be a " ++ ct ++ " change."
          template_content := content "feature.md"
          usage_hint := "Claude can help you fill out this template based on the specific changes in your PR." } := by
      simp only [suggest_template, htmpl, DEFAULT_TEMPLATES, List.map_cons,
        List.map_nil, hk, Option.getD_none]
      simp [List.find?]
    exact ⟨_, hcalc, rfl, fun _ => rfl⟩
  | some k =>
    have hmem := dictGet_TYPE_MAPPING_mem_values (pyToLower ct) k hk
    rcases hmem with rfl | rfl | rfl | rfl | rfl | rfl | rfl
    · have hcalc : suggest_template read cs ct = .ok
          { recommended_template := ⟨"bug.md", "Bug Fix", content "bug.md"⟩
            reasoning := "Based on your analysis: \x27" ++ cs ++
              "\x27, this appears to be a " ++ ct ++ " change."
            template_content := content "bug.md"
            usage_hint := "Claude can help you fill out this template based on the specific changes in your PR." } := by
        simp only [suggest_template, htmpl, DEFAULT_TEMPLATES, List.map_cons,
          List.map_nil, hk, Option.getD_some]
        simp [List.find?]
      exact ⟨_, hcalc, rfl, fun hnone => Option.noConfusion hnone⟩
    · have hcalc : suggest_template read cs ct = .ok
          { recommended_template := ⟨"feature.md", "Feature", content "feature.md"⟩
            reasoning := "Based on your analysis: \x27" ++ cs ++
              "\x27, this appears to be a " ++ ct ++ " change."
            template_content := content "feature.md"
            usage_hint := "Claude can help you fill out this template based on the specific changes in your PR." } := by
        simp only [suggest_template, htmpl, DEFAULT_TEMPLATES, List.map_cons,
          List.map_nil, hk, Option.getD_some]
        simp [List.find?]
      exact ⟨_, hcalc, rfl, fun hnone => Option.noConfusion hnone⟩
    · have hcalc : suggest_template read cs ct = .ok
          { recommended_template := ⟨"docs.md", "Documentation", content "docs.md"⟩
            reasoning := "Based on your analysis: \x27" ++ cs ++
              "\x27, this appears to be a " ++ ct ++ " change."
            template_content := content "docs.md"
            usage_hint := "Claude can help you fill out this template based on the specific changes in your PR." } := by
        simp only [suggest_template, htmpl, DEFAULT_TEMPLATES, List.map_cons,
          List.map_nil, hk, Option.getD_some]
        simp [List.find?]
      exact ⟨_, hcalc, rfl, fun hnone => Option.noConfusion hnone⟩
    · have hcalc : suggest_template read cs ct = .ok
          { recommended_template := ⟨"refactor.md", "Refactor", content "refactor.md"⟩
            reasoning := "Based on your analysis: \x27" ++ cs ++
              "\x27, this appears to be a " ++ ct ++ " change."
            template_content := content "refactor.md"
            usage_hint := "Claude can help you fill out this template based on the specific changes in your PR." } := by
        simp only [suggest_template, htmpl, DEFAULT_TEMPLATES, List.map_cons,
          List.map_nil, hk, Option.getD_some]
        simp [List.find?]
      exact ⟨_, hcalc, rfl, fun hnone => Option.noConfusion hnone⟩
    · have hcalc : suggest_template read cs ct = .ok
          { recommended_template := ⟨"test.md", "Test", content "test.md"⟩
            reasoning := "Based on your analysis: \x27" ++ cs ++
              "\x27, this appears to be a " ++ ct ++ " change."
            template_content := content "test.md"
            usage_hint := "Claude can help you fill out this template based on the specific changes in your PR." } := by
        simp only [suggest_template, htmpl, DEFAULT_TEMPLATES, List.map_cons,
          List.map_nil, hk, Option.getD_some]
        simp [List.find?]
      exact ⟨_, hcalc, rfl, fun hnone => Option.noConfusion hnone⟩
    · have hcalc : suggest_template read cs ct = .ok
          { recommended_template :=
            ⟨"performance.md", "Performance", content "performance.md"⟩
            reasoning := "Based on your analysis: \x27" ++ cs ++
              "\x27, this appears to be a " ++ ct ++ " change."
            template_content := content "performance.md"
            usage_hint := "Claude can help you fill out this template based on the specific changes in your PR." } := by
        simp only [suggest_template, htmpl, DEFAULT_TEMPLATES, List.map_cons,
          List.map_nil, hk, Option.getD_some]
        simp [List.find?]
      exact ⟨_, hcalc, rfl, fun hnone => Option.noConfusion hnone⟩
    · have hcalc : suggest_template read cs ct = .ok
          { recommended_template :=
            ⟨"security.md", "Security", content "security.md"⟩
            reasoning := "Based on your analysis: \x27" ++ cs ++
              "\x27, this appears to be a " ++ ct ++ " change."
            template_content := content "security.md"
            usage_hint := "Claude can help you fill out this template based on the specific changes in your PR." } := by
        simp only [suggest_template, htmpl, DEFAULT_TEMPLATES, List.map_cons,
          List.map_nil, hk, Option.getD_some]
        simp [List.find?]
      exact ⟨_, hcalc, rfl, fun hnone => Option.noConfusion hnone⟩

/-- Closed instance of `suggest_template_type_lookup` at change type
`"bug"` with reads that tag each filename. -/
theorem suggest_template_type_lookup_witness :
    ∃ s, suggest_template (fun fn => .ok ("C:" ++ fn)) "fixed null pointer"
        "bug" = .ok s ∧
      s.template_content = (fun fn => "C:" ++ fn)
        ((dictGet TYPE_MAPPING (pyToLower "bug")).getD "feature.md") ∧
      (dictGet TYPE_MAPPING (pyToLower "bug") = none →
        s.template_content = (fun fn => "C:" ++ fn) "feature.md") :=
  suggest_template_type_lookup (fun fn => .ok ("C:" ++ fn))
    (fun fn => "C:" ++ fn) (fun _ => rfl) "fixed null pointer" "bug"

end PRAgent
